import Mathlib

/-!
# Verification of the Covid-ABM simulation orchestration core

Shallow embedding of `covasim/framework/model.py`: the `ParsObj` parameter
store (`__getitem__`, `__setitem__`, `update_pars`), `Sim.set_seed`, and the
ensemble runner (`single_run`, `multi_run` with its `combine` merge step).

Python dicts are embedded as association lists in insertion order (updates
rewrite an existing entry in place, fresh keys are appended); parameter values
are rationals; exceptions become an explicit `Err` type whose constructors
mirror the individual `raise` sites of the source.  The random stream seeding
performed by `cov_ut.set_seed` and the `np.random.normal()` draw are modelled
by recording the seed on the engine and by passing the drawn value explicitly.
-/

set_option linter.unusedVariables false

/-- Errors, one constructor per `raise` site of the source file. -/
inductive Err where
  /-- a plain Python dict `KeyError(key)` (e.g. `ParsObj.__getitem__`). -/
  | keyErrorPlain (key : String)
  /-- `ParsObj.__setitem__` line 39: unknown key with a near-match suggestion. -/
  | keyErrorSuggestion (key suggestion : String)
  /-- `ParsObj.__setitem__` line 42: unknown key, listing all available keys. -/
  | keyErrorAvailable (key : String) (availableKeys : List String)
  /-- `ParsObj.update_pars` line 60: keys not found in the store. -/
  | keyErrorMismatches (mismatches availableKeys : List String)
  /-- `Sim.set_seed` line 146: both a seed and `randomize=True` supplied. -/
  | valueErrorSeedRandomize
  /-- `single_run` line 320: could not guess the noise parameter. -/
  | keyErrorNoiseGuess (found : List String)
  /-- `single_run` line 344: an override key is not a valid parameter name. -/
  | keyErrorInvalidOverride (key : String)
  /-- `multi_run` line 372: iterpars entries of different lengths. -/
  | valueErrorIterLength (n newN : Nat)
  /-- `multi_run` line 377: `np.arange(None)` when `iterpars` is empty. -/
  | typeErrorArange
  /-- `multi_run` line 386: `sims[0]` on an empty list of runs. -/
  | indexErrorEmptySims
deriving DecidableEq

/-- Python-dict lookup on an association list (first matching key). -/
def dictGet {κ α : Type} [DecidableEq κ] (d : List (κ × α)) (k : κ) : Option α :=
  match d with
  | [] => none
  | kv :: rest => if kv.1 = k then some kv.2 else dictGet rest k

/-- Python `key in dict`. -/
def dictMem {κ α : Type} [DecidableEq κ] (d : List (κ × α)) (k : κ) : Bool :=
  (dictGet d k).isSome

/-- Python-dict assignment `d[k] = v`: rewrite the entry in place when the key
exists, append it otherwise (insertion-order semantics). -/
def dictSet {κ α : Type} [DecidableEq κ] (d : List (κ × α)) (k : κ) (v : α) :
    List (κ × α) :=
  if dictMem d k then d.map (fun kv => if kv.1 = k then (k, v) else kv)
  else d ++ [(k, v)]

/-- Python `d.update(new)`: apply every entry of `new` in order. -/
def dictUpdate {κ α : Type} [DecidableEq κ] (d new : List (κ × α)) :
    List (κ × α) :=
  new.foldl (fun acc kv => dictSet acc kv.1 kv.2) d

/-- Python `list(d.keys())`. -/
def dictKeys {κ α : Type} [DecidableEq κ] (d : List (κ × α)) : List κ :=
  d.map (·.1)

/-- The parameter dictionary `self.pars` of `ParsObj`. -/
abbrev Pars := List (String × ℚ)

/-- The results mapping of a completed engine: TimeSeries name to its per-day
values.  Modelled from the spec: the concrete `init_results` (disease-model
plug-in) is not part of the source file; the spec describes results as named
fixed-length numeric arrays. -/
abbrev Results := List (String × List ℚ)

/-- A `Sim` engine: its `ParsObj` parameter store, its population (`people`,
a dict from identifier to an agent record, modelled from the spec since the
concrete `init_people` is not in the source), its results, and the seed last
fed to the global random stream.  `rngSeededWith` models `cov_ut.set_seed`
(in `utils.py`, outside the source file): it records the seed the stream was
reset with, `none` meaning a randomized stream. -/
structure Sim where
  pars : Pars
  people : List (Nat × Nat)
  results : Results
  rngSeededWith : Option ℚ
deriving DecidableEq

/-- Fuel-driven Levenshtein edit distance (structural recursion on fuel so
that the kernel can evaluate it). -/
def levFuel : Nat → List Char → List Char → Nat
  | 0, xs, ys => xs.length + ys.length
  | _ + 1, [], ys => ys.length
  | _ + 1, xs, [] => xs.length
  | fuel + 1, x :: xs, y :: ys =>
    if x = y then levFuel fuel xs ys
    else 1 + min (levFuel fuel xs (y :: ys))
            (min (levFuel fuel (x :: xs) ys) (levFuel fuel xs ys))

/-- Levenshtein edit distance between two strings. -/
def editDistance (a b : String) : Nat :=
  levFuel (a.length + b.length) a.toList b.toList

/-- Modelled from the spec: `sc.suggest` (external sciris helper used at
`ParsObj.__setitem__` line 37) returns a suggested near-match for `key`
among `keys` via edit distance, or `None` when there are no keys. -/
def suggest (key : String) (keys : List String) : Option String :=
  match keys with
  | [] => none
  | k :: rest =>
    some (rest.foldl
      (fun best cand =>
        if editDistance key cand < editDistance key best then cand else best) k)

/-- `ParsObj.__getitem__` (line 30): `return self.pars[key]`; an absent key
raises the plain dict `KeyError(key)`. -/
def getitem (pars : Pars) (key : String) : Except Err ℚ :=
  match dictGet pars key with
  | some v => .ok v
  | none => .error (.keyErrorPlain key)

/-- `ParsObj.__setitem__` (lines 32-44).  Returns the raised error (if any)
together with the resulting store; on error the store is returned unchanged,
mirroring that the `raise` happens before any mutation. -/
def setitem (pars : Pars) (key : String) (v : ℚ) : Option Err × Pars :=
  if dictMem pars key then (none, dictSet pars key v)
  else
    match suggest key (dictKeys pars) with
    | some s => (some (.keyErrorSuggestion key s), pars)
    | none => (some (.keyErrorAvailable key (dictKeys pars)), pars)

/-- `ParsObj.update_pars` (lines 46-63) on an already-constructed store
(`self.pars` exists): when `create=False` every key of `pars` is checked
against the available keys and a `KeyError` listing all mismatches is raised
before `self.pars.update(pars)` runs; with `create=True` the update is
applied unconditionally. -/
def update_pars (pars new : Pars) (create : Bool) : Option Err × Pars :=
  if create then (none, dictUpdate pars new)
  else
    match (dictKeys new).filter (fun k => !dictMem pars k) with
    | [] => (none, dictUpdate pars new)
    | mismatches => (some (.keyErrorMismatches mismatches (dictKeys pars)), pars)

/-- `Sim.set_seed` (lines 121-153): resolve which seed to use (explicit,
stored, or randomized), store an explicit seed, and reset the random stream
(`cov_ut.set_seed`, modelled by `rngSeededWith`). -/
def set_seed (sim : Sim) (seed : Option ℚ) (randomize : Bool) :
    Except Err Sim :=
  if randomize then
    match seed with
    | none => .ok { sim with rngSeededWith := none }
    | some _ => .error .valueErrorSeedRandomize
  else
    match seed with
    | none =>
      match getitem sim.pars "seed" with
      | .error e => .error e
      | .ok s => .ok { sim with rngSeededWith := some s }
    | some s =>
      match setitem sim.pars "seed" s with
      | (some e, _) => .error e
      | (none, pars1) => .ok { sim with pars := pars1, rngSeededWith := some s }

/-- The two engine objects alive during `single_run`: the caller's template
`sim` and the worker's private deep copy `new_sim` (`sc.dcp(sim)`, line 307).
Every mutation in the source is transcribed against the object it targets, so
the frame property "the template is never written" is a theorem about this
embedding rather than a typing accident. -/
structure Heap where
  template : Sim
  clone : Sim
deriving DecidableEq

/-- Outcome of a stateful step: Python exceptions propagate while leaving the
mutations performed so far in place, so both constructors carry the heap. -/
inductive RunResult (α : Type) where
  | ok (a : α) (h : Heap)
  | error (e : Err) (h : Heap)
deriving DecidableEq

/-- The heap after a step, whether it succeeded or raised. -/
def RunResult.heapOf {α : Type} : RunResult α → Heap
  | .ok _ h => h
  | .error _ h => h

/-- `single_run` lines 309-310: use the supplied `verbose` or fall back to
`new_sim['verbose']`. -/
def resolve_verbose (verbose : Option ℚ) (new_sim : Sim) : Except Err ℚ :=
  match verbose with
  | some v => .ok v
  | none => getitem new_sim.pars "verbose"

/-- `single_run` lines 326-329: the multiplicative noise factor derived from
the drawn value `noiseval`. -/
def noisefactor (noiseval : ℚ) : ℚ :=
  if noiseval > 0 then 1 + noiseval else 1 / (1 - noiseval)

/-- The candidate noise driver parameters (`single_run` line 317). -/
def guesses : List String := ["r_contact", "r0", "beta"]

/-- `single_run` lines 336-344, the `**kwargs` override loop.  The source
contains an indentation slip: `new_sim[key] = val` sits inside the
`if verbose>=1:` block (under the debug print), so a valid override is
applied only when `verbose >= 1`; an invalid key raises regardless.  The
transcription reproduces this faithfully. -/
def apply_kwargs (verbose : ℚ) (kwargs : List (String × ℚ)) (new_sim : Sim) :
    Option Err × Sim :=
  match kwargs with
  | [] => (none, new_sim)
  | (key, val) :: rest =>
    if dictMem new_sim.pars key then
      if verbose ≥ 1 then
        match setitem new_sim.pars key val with
        | (some e, _) => (some e, new_sim)
        | (none, pars1) => apply_kwargs verbose rest { new_sim with pars := pars1 }
      else apply_kwargs verbose rest new_sim
    else (some (.keyErrorInvalidOverride key), new_sim)

/-- `single_run` lines 304-344: everything before `new_sim.run()`.  The heap
holds the template and the clone; `z` is the value drawn by
`np.random.normal()` (line 325). -/
def single_run_prep (ind noise : ℚ) (noisepar : Option String)
    (verbose : Option ℚ) (z : ℚ) (kwargs : List (String × ℚ)) (h : Heap) :
    RunResult Unit :=
  -- new_sim = sc.dcp(sim)                                        (line 307)
  let h : Heap := { h with clone := h.template }
  -- if verbose is None: verbose = new_sim['verbose']       (lines 309-310)
  match resolve_verbose verbose h.clone with
  | .error e => .error e h
  | .ok verbose =>
  -- new_sim['seed'] += ind                                       (line 312)
  match getitem h.clone.pars "seed" with
  | .error e => .error e h
  | .ok s0 =>
  match setitem h.clone.pars "seed" (s0 + ind) with
  | (some e, _) => .error e h
  | (none, pars1) =>
  let h : Heap := { h with clone := { h.clone with pars := pars1 } }
  -- new_sim.set_seed()                                           (line 313)
  match set_seed h.clone none false with
  | .error e => .error e h
  | .ok clone2 =>
  let h : Heap := { h with clone := clone2 }
  -- guess the noise parameter from sim.pars (the template!) (lines 316-322)
  match (match noisepar with
         | some p => Except.ok p
         | none =>
           match guesses.filter (fun g => dictMem h.template.pars g) with
           | [p] => Except.ok p
           | found => Except.error (Err.keyErrorNoiseGuess found)) with
  | .error e => .error e h
  | .ok noisepar =>
  -- new_sim[noisepar] *= noisefactor                       (lines 324-330)
  match getitem h.clone.pars noisepar with
  | .error e => .error e h
  | .ok cur =>
  match setitem h.clone.pars noisepar (cur * noisefactor (noise * z)) with
  | (some e, _) => .error e h
  | (none, pars2) =>
  let h : Heap := { h with clone := { h.clone with pars := pars2 } }
  -- the **kwargs override loop                             (lines 336-344)
  match apply_kwargs verbose kwargs h.clone with
  | (some e, clone3) => .error e { h with clone := clone3 }
  | (none, clone3) => .ok () { h with clone := clone3 }

/-- `single_run` (lines 295-349).  `runImpl` stands for `new_sim.run()`:
modelled from the spec, since the concrete `Sim.run` (the day-by-day stepping
loop of the disease-model plug-in) is `NotImplementedError` in the source
file; the spec says it populates the engine's results from its parameters and
seeded stream.  The clone is run and returned (line 349). -/
def single_run (runImpl : Sim → Sim) (ind noise : ℚ) (noisepar : Option String)
    (verbose : Option ℚ) (z : ℚ) (kwargs : List (String × ℚ)) (h : Heap) :
    RunResult Sim :=
  match single_run_prep ind noise noisepar verbose z kwargs h with
  | .error e h1 => .error e h1
  | .ok _ h1 =>
    let new_sim := runImpl h1.clone
    .ok new_sim { h1 with clone := new_sim }

/-- `multi_run` lines 368-374: derive the run count from the lengths of the
`iterpars` entries, starting from `n = None`. -/
def derive_n_loop (n : Option Nat) (iterpars : List (String × List ℚ)) :
    Except Err (Option Nat) :=
  match iterpars with
  | [] => .ok n
  | kv :: rest =>
    match n with
    | some m =>
      if kv.2.length ≠ m then .error (.valueErrorIterLength m kv.2.length)
      else derive_n_loop (some kv.2.length) rest
    | none => derive_n_loop (some kv.2.length) rest

/-- `multi_run` lines 365-374: `n = None`, then the length-checking loop. -/
def derive_n (iterpars : List (String × List ℚ)) : Except Err (Option Nat) :=
  derive_n_loop none iterpars

/-- The per-run keyword arguments contributed by `iterpars` for run `i`
(`iterkwargs.update(iterpars)`, line 378, zipped per index by
`sc.parallelize`). -/
def kwargs_at (iterpars : List (String × List ℚ)) (i : Nat) :
    List (String × ℚ) :=
  iterpars.map (fun kv => (kv.1, kv.2.getD i 0))

/-- `sc.parallelize(single_run, ...)` (line 380): one `single_run` per index,
each on its own private copy of the template (heap `⟨sim, sim⟩`); a worker
exception aborts the whole batch.  `zs i` is run `i`'s normal draw. -/
def run_sims (runImpl : Sim → Sim) (sim : Sim) (noise : ℚ)
    (noisepar : Option String) (verbose : Option ℚ) (zs : Nat → ℚ)
    (iterpars : List (String × List ℚ)) : List Nat → Except Err (List Sim)
  | [] => .ok []
  | i :: rest =>
    match single_run runImpl (i : ℚ) noise noisepar verbose (zs i)
        (kwargs_at iterpars i) ⟨sim, sim⟩ with
    | .error e _ => .error e
    | .ok s _ =>
      match run_sims runImpl sim noise noisepar verbose zs iterpars rest with
      | .error e => .error e
      | .ok sims => .ok (s :: sims)

/-- `multi_run` up to the collection of the completed runs (lines 360-380):
handle `iterpars`, derive the run count, and execute the runs. -/
def multi_run_sims (runImpl : Sim → Sim) (sim : Sim) (n : Nat) (noise : ℚ)
    (noisepar : Option String) (iterpars : Option (List (String × List ℚ)))
    (verbose : Option ℚ) (zs : Nat → ℚ) : Except Err (Nat × List Sim) :=
  match iterpars with
  | none =>
    match run_sims runImpl sim noise noisepar verbose zs [] (List.range n) with
    | .error e => .error e
    | .ok sims => .ok (n, sims)
  | some ips =>
    match derive_n ips with
    | .error e => .error e
    | .ok none => .error .typeErrorArange
    | .ok (some m) =>
      match run_sims runImpl sim noise noisepar verbose zs ips
          (List.range m) with
      | .error e => .error e
      | .ok sims => .ok (m, sims)

/-- Element-wise sum of two TimeSeries value arrays (numpy `+=` on
equal-length arrays).  Modelled from the spec: result values are summed
element-wise across runs, valid when the runs share the same `npts`. -/
def addSeries (xs ys : List ℚ) : List ℚ := List.zipWith (· + ·) xs ys

/-- `multi_run` lines 391-392: `for key in sim.results_keys:
output_sim.results[key] += sim.results[key]`.  `results_keys` (not defined in
the source file) is modelled from the spec as the names of the engine's
TimeSeries; a key absent from the accumulator raises a plain `KeyError`. -/
def add_results (out srcResults : Results) : Except Err Results :=
  match srcResults with
  | [] => .ok out
  | kv :: rest =>
    match dictGet out kv.1 with
    | none => .error (.keyErrorPlain kv.1)
    | some xs => add_results (dictSet out kv.1 (addSeries xs kv.2)) rest

/-- `multi_run` lines 389-392, the `for sim in sims[1:]` loop: population
dict-update (`output_sim.people.update(sim.people)`) and element-wise result
summation, accumulated on `out`. -/
def combine_loop (out : Sim) : List Sim → Except Err Sim
  | [] => .ok out
  | s :: rest =>
    match add_results out.results s.results with
    | .error e => .error e
    | .ok res =>
      combine_loop
        { out with people := dictUpdate out.people s.people, results := res }
        rest

/-- `multi_run` lines 385-393, the `combine=True` merge: deep-copy the first
completed run (`sims[0]`), store `parallelized = n` (a raw dict write that
creates the key), scale the population-count parameter via
`output_sim.pars['n'] *= n` (raw dict read, `KeyError` if absent), then fold
the remaining runs in. -/
def combine_sims (sims : List Sim) (n : Nat) : Except Err Sim :=
  match sims with
  | [] => .error .indexErrorEmptySims
  | s0 :: rest =>
    match dictGet (dictSet s0.pars "parallelized" (n : ℚ)) "n" with
    | none => .error (.keyErrorPlain "n")
    | some nval =>
      combine_loop
        { s0 with
          pars := dictSet (dictSet s0.pars "parallelized" (n : ℚ)) "n"
            (nval * (n : ℚ)) }
        rest

/-- `multi_run` (lines 352-395): execute the runs, then either return them as
a list (`combine=False`) or merge them (`combine=True`). -/
def multi_run (runImpl : Sim → Sim) (sim : Sim) (n : Nat) (noise : ℚ)
    (noisepar : Option String) (iterpars : Option (List (String × List ℚ)))
    (verbose : Option ℚ) (combine : Bool) (zs : Nat → ℚ) :
    Except Err (List Sim ⊕ Sim) :=
  match multi_run_sims runImpl sim n noise noisepar iterpars verbose zs with
  | .error e => .error e
  | .ok (m, sims) =>
    if combine then
      match combine_sims sims m with
      | .error e => .error e
      | .ok out => .ok (.inr out)
    else .ok (.inl sims)

/-- Decidable equality for `Except`, used to evaluate the runner on concrete
inputs. -/
instance exceptDecEq {ε α : Type} [DecidableEq ε] [DecidableEq α] :
    DecidableEq (Except ε α) := fun x y =>
  match x, y with
  | .ok a, .ok b =>
    if h : a = b then .isTrue (by rw [h]) else .isFalse (by simp [h])
  | .error e, .error f =>
    if h : e = f then .isTrue (by rw [h]) else .isFalse (by simp [h])
  | .ok _, .error _ => .isFalse (by simp)
  | .error _, .ok _ => .isFalse (by simp)

/-- Whether an error carries the near-match suggestion or the full available
key listing that `ParsObj.__setitem__` produces. -/
def Err.isSuggestionOrListing : Err → Bool
  | .keyErrorSuggestion _ _ => true
  | .keyErrorAvailable _ _ => true
  | _ => false

/-- The template engine exhibiting the override slip of C2. -/
def c2sim : Sim := ⟨[("seed", 0), ("verbose", 0), ("r0", 2), ("x", 4)], [], [], none⟩

/-- The engine `single_run` prepares from `c2sim` at `verbose = 0`: the
override `x := 9` has been dropped. -/
def c2quiet : Sim := ⟨[("seed", 0), ("verbose", 0), ("r0", 2), ("x", 4)], [], [], some 0⟩

/-- The engine prepared at `verbose = 1`: the override `x := 9` is applied. -/
def c2loud : Sim := ⟨[("seed", 0), ("verbose", 0), ("r0", 2), ("x", 9)], [], [], some 0⟩

/-- Witness store for the C7 and C8 instantiations. -/
def wpars : Pars := [("beta", 3)]

/-- Witness store and mapping for the C9 instantiation. -/
def w9pars : Pars := [("alpha", 1), ("beta", 2)]

/-- Mapping with the unknown key `gamma`, for the C9 instantiation. -/
def w9new : Pars := [("beta", 5), ("gamma", 7)]

/-- Template engine for the C3 witness. -/
def w3sim : Sim := ⟨[("seed", 4), ("verbose", 0), ("beta", 2)], [], [], none⟩

/-- The clone `single_run` prepares from `w3sim` at index 3. -/
def w3run1 : Sim := ⟨[("seed", 7), ("verbose", 0), ("beta", 2)], [], [], some 7⟩

/-- The clone `single_run` prepares from `w3sim` at index 5. -/
def w3run2 : Sim := ⟨[("seed", 9), ("verbose", 0), ("beta", 2)], [], [], some 9⟩

/-- Engine with exactly one driver candidate (for C4). -/
def w4one : Sim := ⟨[("seed", 0), ("r0", 2)], [], [], none⟩

/-- Engine with two driver candidates (for C4). -/
def w4two : Sim := ⟨[("seed", 0), ("r0", 2), ("beta", 1)], [], [], none⟩

/-- The engine `single_run id` returns for `w4one` at index 0 and quiet
verbosity. -/
def w4run : Sim := ⟨[("seed", 0), ("r0", 2)], [], [], some 0⟩

/-- Template engine for the C6 witness. -/
def w6sim : Sim := ⟨[("seed", 0), ("verbose", 0), ("beta", 1)], [], [], none⟩

/-- First run collected by the C6 witness sweep. -/
def w6r1 : Sim := ⟨[("seed", 0), ("verbose", 0), ("beta", 1)], [], [], some 0⟩

/-- Second run collected by the C6 witness sweep. -/
def w6r2 : Sim := ⟨[("seed", 1), ("verbose", 0), ("beta", 1)], [], [], some 1⟩

/-- Template engine for the C1 witness. -/
def w1sim : Sim := ⟨[("seed", 0), ("verbose", 0), ("beta", 1), ("n", 5)], [], [], none⟩

/-- Modelled from the spec: a concrete `Sim.run` for the C1 witness — it
fills the `new_infections` TimeSeries deterministically from the seeded
stream (sum 50 for the stream seeded with 0, sum 70 otherwise) and reads but
never writes the parameter store. -/
def w1run : Sim → Sim := fun s =>
  if s.rngSeededWith = some 0 then
    { s with results := [("new_infections", [20, 30])] }
  else { s with results := [("new_infections", [30, 40])] }

/-- First completed run of the C1 witness ensemble. -/
def w1s1 : Sim :=
  ⟨[("seed", 0), ("verbose", 0), ("beta", 1), ("n", 5)], [],
   [("new_infections", [20, 30])], some 0⟩

/-- Second completed run of the C1 witness ensemble. -/
def w1s2 : Sim :=
  ⟨[("seed", 1), ("verbose", 0), ("beta", 1), ("n", 5)], [],
   [("new_infections", [30, 40])], some 1⟩

/-- The merged engine of the C1 witness ensemble. -/
def w1merged : Sim :=
  ⟨[("seed", 0), ("verbose", 0), ("beta", 1), ("n", 10), ("parallelized", 2)],
   [], [("new_infections", [50, 70])], some 0⟩

section DictLemmas

variable {κ α : Type} [DecidableEq κ]

theorem dictGet_map_replace_self (d : List (κ × α)) (k : κ) (v : α)
    (h : dictMem d k = true) :
    dictGet (d.map (fun kv => if kv.1 = k then (k, v) else kv)) k = some v := by
  induction d with
  | nil => simp [dictMem, dictGet] at h
  | cons kv rest ih =>
    by_cases hk : kv.1 = k
    · simp [dictGet, hk]
    · have h' : dictMem rest k = true := by
        simpa [dictMem, dictGet, hk] using h
      simpa [dictGet, hk] using ih h'

theorem dictGet_append_single_self (d : List (κ × α)) (k : κ) (v : α)
    (h : dictMem d k = false) :
    dictGet (d ++ [(k, v)]) k = some v := by
  induction d with
  | nil => simp [dictGet]
  | cons kv rest ih =>
    have hk : ¬ kv.1 = k := by
      intro hc
      simp [dictMem, dictGet, hc] at h
    have h' : dictMem rest k = false := by
      simpa [dictMem, dictGet, hk] using h
    simpa [dictGet, hk] using ih h'

theorem dictGet_dictSet_self (d : List (κ × α)) (k : κ) (v : α) :
    dictGet (dictSet d k v) k = some v := by
  by_cases hm : dictMem d k
  · simpa [dictSet, hm] using dictGet_map_replace_self d k v hm
  · have hm' : dictMem d k = false := by simpa using hm
    simpa [dictSet, hm'] using dictGet_append_single_self d k v hm'

theorem dictGet_map_replace_ne (d : List (κ × α)) (k k' : κ) (v : α)
    (h : k' ≠ k) :
    dictGet (d.map (fun kv => if kv.1 = k then (k, v) else kv)) k'
      = dictGet d k' := by
  induction d with
  | nil => simp [dictGet]
  | cons kv rest ih =>
    by_cases hk : kv.1 = k
    · have h1 : ¬ (k : κ) = k' := fun hc => h hc.symm
      have h2 : ¬ kv.1 = k' := by rw [hk]; exact h1
      simpa [dictGet, hk, h1, h2] using ih
    · by_cases hkv' : kv.1 = k'
      · simp [dictGet, hk, hkv', h]
      · simpa [dictGet, hk, hkv'] using ih

theorem dictGet_append_single_ne (d : List (κ × α)) (k k' : κ) (v : α)
    (h : k' ≠ k) :
    dictGet (d ++ [(k, v)]) k' = dictGet d k' := by
  induction d with
  | nil =>
    have h1 : ¬ (k : κ) = k' := fun hc => h hc.symm
    simp [dictGet, h1]
  | cons kv rest ih =>
    by_cases hkv' : kv.1 = k'
    · simp [dictGet, hkv']
    · simpa [dictGet, hkv'] using ih

theorem dictGet_dictSet_ne (d : List (κ × α)) (k k' : κ) (v : α)
    (h : k' ≠ k) : dictGet (dictSet d k v) k' = dictGet d k' := by
  by_cases hm : dictMem d k
  · simpa [dictSet, hm] using dictGet_map_replace_ne d k k' v h
  · have hm' : dictMem d k = false := by simpa using hm
    simpa [dictSet, hm'] using dictGet_append_single_ne d k k' v h

theorem dictMem_of_dictGet_some {d : List (κ × α)} {k : κ} {v : α}
    (h : dictGet d k = some v) : dictMem d k = true := by
  simp [dictMem, h]

theorem dictGet_some_of_dictMem {d : List (κ × α)} {k : κ}
    (h : dictMem d k = true) : ∃ v, dictGet d k = some v := by
  simpa [dictMem, Option.isSome_iff_exists] using h

theorem mem_dictKeys_of_dictGet_some {d : List (κ × α)} {k : κ} {v : α}
    (h : dictGet d k = some v) : k ∈ dictKeys d := by
  induction d with
  | nil => simp [dictGet] at h
  | cons kv rest ih =>
    by_cases hk : kv.1 = k
    · simp [dictKeys, hk]
    · simp [dictGet, hk] at h
      simp [dictKeys] at ih ⊢
      exact Or.inr (ih h)

theorem dictMem_of_mem_dictKeys {d : List (κ × α)} {k : κ}
    (h : k ∈ dictKeys d) : dictMem d k = true := by
  induction d with
  | nil => simp [dictKeys] at h
  | cons kv rest ih =>
    by_cases hk : kv.1 = k
    · simp [dictMem, dictGet, hk]
    · simp [dictKeys, hk] at h
      rcases h with h | h
      · exact absurd h.symm hk
      · have := ih (by simpa [dictKeys] using h)
        simpa [dictMem, dictGet, hk] using this

end DictLemmas

theorem setitem_of_mem {pars : Pars} {key : String} (v : ℚ)
    (h : dictMem pars key = true) :
    setitem pars key v = (none, dictSet pars key v) := by
  simp [setitem, h]

theorem setitem_of_not_mem {pars : Pars} {key : String} (v : ℚ)
    (h : dictMem pars key = false) :
    (setitem pars key v).2 = pars ∧ (setitem pars key v).1.isSome = true := by
  cases hs : suggest key (dictKeys pars) <;> simp [setitem, h, hs]

theorem mem_of_filter_eq_singleton {α : Type} {l : List α} {f : α → Bool}
    {p : α} (h : l.filter f = [p]) : p ∈ l := by
  have hmem : p ∈ l.filter f := by rw [h]; exact List.mem_singleton_self p
  exact List.mem_of_mem_filter hmem

theorem filter_true_of_filter_eq_singleton {α : Type} {l : List α}
    {f : α → Bool} {p : α} (h : l.filter f = [p]) : f p = true := by
  have hmem : p ∈ l.filter f := by rw [h]; exact List.mem_singleton_self p
  exact List.of_mem_filter hmem

theorem guesses_ne_of_mem {p : String} (hp : p ∈ guesses) :
    p ≠ "seed" ∧ p ≠ "n" ∧ p ≠ "verbose" ∧ p ≠ "parallelized" := by
  fin_cases hp <;> exact ⟨by decide, by decide, by decide, by decide⟩

/-- Forward evaluation of `single_run_prep` in the configuration in which
`multi_run` invokes it when no `iterpars` are supplied (automatic noise
parameter detection, no keyword overrides), success case: the verbose and
seed lookups succeed and the candidate filter finds exactly one driver
parameter. -/
theorem single_run_prep_run_eq (ind noise z : ℚ) (vb : Option ℚ) (sim : Sim)
    (w s0 : ℚ) (p : String) (cur : ℚ)
    (hv : resolve_verbose vb sim = .ok w)
    (hs : dictGet sim.pars "seed" = some s0)
    (hg : guesses.filter (fun g => dictMem sim.pars g) = [p])
    (hcur : dictGet sim.pars p = some cur) :
    single_run_prep ind noise none vb z [] ⟨sim, sim⟩ =
      .ok () ⟨sim, { sim with
        pars := dictSet (dictSet sim.pars "seed" (s0 + ind)) p
          (cur * noisefactor (noise * z)),
        rngSeededWith := some (s0 + ind) }⟩ := by
  have hm : dictMem sim.pars "seed" = true := dictMem_of_dictGet_some hs
  have hs1 : dictGet (dictSet sim.pars "seed" (s0 + ind)) "seed"
      = some (s0 + ind) := dictGet_dictSet_self sim.pars "seed" (s0 + ind)
  have hpne : p ≠ "seed" :=
    (guesses_ne_of_mem (mem_of_filter_eq_singleton hg)).1
  have hcur1 : dictGet (dictSet sim.pars "seed" (s0 + ind)) p = some cur := by
    rw [dictGet_dictSet_ne sim.pars "seed" p (s0 + ind) hpne]; exact hcur
  have hmp : dictMem (dictSet sim.pars "seed" (s0 + ind)) p = true :=
    dictMem_of_dictGet_some hcur1
  simp only [single_run_prep, hv, getitem, hs, setitem_of_mem (s0 + ind) hm,
    set_seed, Bool.false_eq_true, if_false, hs1, hg, hcur1,
    setitem_of_mem (cur * noisefactor (noise * z)) hmp, apply_kwargs]

/-- Forward evaluation, failure case: the candidate filter does not find
exactly one driver parameter, so the noise-parameter guess raises. -/
theorem single_run_prep_guess_fail (ind noise z : ℚ) (vb : Option ℚ)
    (sim : Sim) (w s0 : ℚ) (found : List String)
    (hv : resolve_verbose vb sim = .ok w)
    (hs : dictGet sim.pars "seed" = some s0)
    (hg : guesses.filter (fun g => dictMem sim.pars g) = found)
    (hlen : found.length ≠ 1) :
    single_run_prep ind noise none vb z [] ⟨sim, sim⟩ =
      .error (.keyErrorNoiseGuess found)
        ⟨sim, { sim with
          pars := dictSet sim.pars "seed" (s0 + ind),
          rngSeededWith := some (s0 + ind) }⟩ := by
  have hm : dictMem sim.pars "seed" = true := dictMem_of_dictGet_some hs
  have hs1 : dictGet (dictSet sim.pars "seed" (s0 + ind)) "seed"
      = some (s0 + ind) := dictGet_dictSet_self sim.pars "seed" (s0 + ind)
  rcases found with _ | ⟨p, _ | ⟨q, rest⟩⟩
  · simp only [single_run_prep, hv, getitem, hs, setitem_of_mem (s0 + ind) hm,
      set_seed, Bool.false_eq_true, if_false, hs1, hg]
  · exact absurd (rfl : ([p] : List String).length = 1) hlen
  · simp only [single_run_prep, hv, getitem, hs, setitem_of_mem (s0 + ind) hm,
      set_seed, Bool.false_eq_true, if_false, hs1, hg]

/-- Inversion: a successful `single_run_prep` (automatic noise parameter, no
overrides) pins down the final heap. -/
theorem single_run_prep_ok_inv {ind noise z : ℚ} {vb : Option ℚ} {sim : Sim}
    {u : Unit} {h' : Heap}
    (hok : single_run_prep ind noise none vb z [] ⟨sim, sim⟩ = .ok u h') :
    ∃ w s0 p cur,
      resolve_verbose vb sim = .ok w ∧
      dictGet sim.pars "seed" = some s0 ∧
      guesses.filter (fun g => dictMem sim.pars g) = [p] ∧
      dictGet sim.pars p = some cur ∧
      h' = ⟨sim, { sim with
        pars := dictSet (dictSet sim.pars "seed" (s0 + ind)) p
          (cur * noisefactor (noise * z)),
        rngSeededWith := some (s0 + ind) }⟩ := by
  rcases hv : resolve_verbose vb sim with e | w
  · simp only [single_run_prep, hv] at hok
    exact RunResult.noConfusion hok
  · rcases hs : dictGet sim.pars "seed" with _ | s0
    · simp only [single_run_prep, hv, getitem, hs] at hok
      exact RunResult.noConfusion hok
    · rcases hg : guesses.filter (fun g => dictMem sim.pars g)
        with _ | ⟨p, _ | ⟨q, rest⟩⟩
      · rw [single_run_prep_guess_fail ind noise z vb sim w s0 [] hv hs hg
          (by decide)] at hok
        exact RunResult.noConfusion hok
      · have hfp : dictMem sim.pars p = true :=
          filter_true_of_filter_eq_singleton hg
        rcases dictGet_some_of_dictMem hfp with ⟨cur, hcur⟩
        rw [single_run_prep_run_eq ind noise z vb sim w s0 p cur
          hv hs hg hcur] at hok
        simp only [RunResult.ok.injEq] at hok
        exact ⟨w, s0, p, cur, rfl, rfl, rfl, hcur, hok.2.symm⟩
      · rw [single_run_prep_guess_fail ind noise z vb sim w s0 (p :: q :: rest)
          hv hs hg (by simp)] at hok
        exact RunResult.noConfusion hok

theorem single_run_prep_template (ind noise : ℚ) (noisepar : Option String)
    (verbose : Option ℚ) (z : ℚ) (kwargs : List (String × ℚ)) (h : Heap) :
    (single_run_prep ind noise noisepar verbose z kwargs h).heapOf.template
      = h.template := by
  simp only [single_run_prep]
  repeat' split
  all_goals simp [RunResult.heapOf]

/-- C10: `single_run` only reads the template engine; every mutation (seed
update, stream reset, noise application, overrides, the run itself) happens
on the private deep copy, which is the engine returned. -/
theorem single_run_template_readonly (runImpl : Sim → Sim) (ind noise : ℚ)
    (noisepar : Option String) (verbose : Option ℚ) (z : ℚ)
    (kwargs : List (String × ℚ)) (h : Heap) :
    (single_run runImpl ind noise noisepar verbose z kwargs h).heapOf.template
      = h.template ∧
    (∀ s h1, single_run runImpl ind noise noisepar verbose z kwargs h
        = .ok s h1 → s = h1.clone) := by
  have hT := single_run_prep_template ind noise noisepar verbose z kwargs h
  cases hp : single_run_prep ind noise noisepar verbose z kwargs h with
  | ok u h1 =>
    rw [hp] at hT
    constructor
    · simpa [single_run, hp, RunResult.heapOf] using hT
    · intro s h2 hok
      simp only [single_run, hp, RunResult.ok.injEq] at hok
      rw [← hok.2, ← hok.1]
  | error e h1 =>
    rw [hp] at hT
    constructor
    · simpa [single_run, hp, RunResult.heapOf] using hT
    · intro s h2 hok
      simp only [single_run, hp] at hok
      exact RunResult.noConfusion hok

/-- C3: `single_run(sim, ind=i)` with the default noise configuration derives
the run seed as the template base seed plus the run index: whenever the
preparation succeeds, the cloned engine handed to `run` carries parameter
`seed = s0 + i` and the random stream was reset with exactly that seed, so
distinct indices receive distinct, deterministic seeds. -/
theorem single_run_seed_spec (i j noise z z' : ℚ) (vb : Option ℚ) (sim : Sim)
    (s0 : ℚ) (hs : dictGet sim.pars "seed" = some s0)
    (u u' : Unit) (h1 h2 : Heap)
    (hok1 : single_run_prep i noise none vb z [] ⟨sim, sim⟩ = .ok u h1)
    (hok2 : single_run_prep j noise none vb z' [] ⟨sim, sim⟩ = .ok u' h2) :
    (dictGet h1.clone.pars "seed" = some (s0 + i) ∧
     h1.clone.rngSeededWith = some (s0 + i)) ∧
    (i ≠ j → h1.clone.rngSeededWith ≠ h2.clone.rngSeededWith) := by
  rcases single_run_prep_ok_inv hok1 with ⟨w, s1, p, cur, hv, hs1, hg, hcur, rfl⟩
  rcases single_run_prep_ok_inv hok2 with
    ⟨w', s2, p', cur', hv', hs2, hg', hcur', rfl⟩
  have hseq : s0 = s1 := by rw [hs] at hs1; exact Option.some_injective _ hs1
  have hseq' : s0 = s2 := by rw [hs] at hs2; exact Option.some_injective _ hs2
  subst hseq hseq'
  have hpne : p ≠ "seed" :=
    (guesses_ne_of_mem (mem_of_filter_eq_singleton hg)).1
  constructor
  · constructor
    · show dictGet (dictSet (dictSet sim.pars "seed" (s0 + i)) p
        (cur * noisefactor (noise * z))) "seed" = some (s0 + i)
      rw [dictGet_dictSet_ne _ p "seed" _ (fun hc => hpne hc.symm)]
      exact dictGet_dictSet_self sim.pars "seed" (s0 + i)
    · rfl
  · intro hij
    show some (s0 + i) ≠ some (s0 + j)
    intro hc
    exact hij (by linarith [Option.some_injective ℚ hc])

/-- C4: with no explicit noise parameter, `single_run` inspects the template
parameter set for the driver candidates `r_contact`, `r0`, `beta`: when
exactly one is present the call proceeds and applies the noise factor to it;
when zero or more than one are present it fails with the noise-parameter
guess error. -/
theorem single_run_noisepar_guess (ind noise z v : ℚ) (sim : Sim) (s0 : ℚ)
    (hs : dictGet sim.pars "seed" = some s0) :
    (∀ p cur, guesses.filter (fun g => dictMem sim.pars g) = [p] →
      dictGet sim.pars p = some cur →
      single_run_prep ind noise none (some v) z [] ⟨sim, sim⟩ =
        .ok () ⟨sim, { sim with
          pars := dictSet (dictSet sim.pars "seed" (s0 + ind)) p
            (cur * noisefactor (noise * z)),
          rngSeededWith := some (s0 + ind) }⟩) ∧
    (∀ found, guesses.filter (fun g => dictMem sim.pars g) = found →
      found.length ≠ 1 →
      single_run_prep ind noise none (some v) z [] ⟨sim, sim⟩ =
        .error (.keyErrorNoiseGuess found)
          ⟨sim, { sim with
            pars := dictSet sim.pars "seed" (s0 + ind),
            rngSeededWith := some (s0 + ind) }⟩) := by
  constructor
  · intro p cur hg hcur
    exact single_run_prep_run_eq ind noise z (some v) sim v s0 p cur rfl hs
      hg hcur
  · intro found hg hlen
    exact single_run_prep_guess_fail ind noise z (some v) sim v s0 found rfl
      hs hg hlen

/-- C5: the multiplicative noise factor drawn by `single_run` equals `1 + v`
when the drawn value `v` is positive and `1/(1-v)` otherwise, and it is
strictly positive for every drawn value. -/
theorem noisefactor_spec (v : ℚ) :
    (v > 0 → noisefactor v = 1 + v) ∧
    (¬ v > 0 → noisefactor v = 1 / (1 - v)) ∧ 0 < noisefactor v := by
  by_cases hv : v > 0
  · refine ⟨fun _ => by simp [noisefactor, hv], fun hc => absurd hv hc, ?_⟩
    simp only [noisefactor, if_pos hv]
    linarith
  · refine ⟨fun hc => absurd hc hv, fun _ => by simp [noisefactor, hv], ?_⟩
    simp only [noisefactor, if_neg hv]
    have h1 : (0:ℚ) < 1 - v := by
      push_neg at hv
      linarith
    exact one_div_pos.mpr h1

/-- C7: on a parameter store, setting an existing key then reading it back
returns the new value; setting an absent key fails and leaves the store
unchanged. -/
theorem setitem_spec (pars : Pars) (key : String) (v : ℚ) :
    (dictMem pars key = true →
      (setitem pars key v).1 = none ∧
      getitem (setitem pars key v).2 key = .ok v) ∧
    (dictMem pars key = false →
      (setitem pars key v).1.isSome = true ∧
      (setitem pars key v).2 = pars) := by
  constructor
  · intro hm
    rw [setitem_of_mem v hm]
    exact ⟨rfl, by simp [getitem, dictGet_dictSet_self]⟩
  · intro hm
    have h := setitem_of_not_mem v hm
    exact ⟨h.2, h.1⟩

/-- C8 (amended): `get` returns the stored value when the key is present; on
an absent key it fails with the plain `KeyError` carrying only the key — the
near-match suggestion / available-key listing is produced by `set`
(`__setitem__`), not by `get` (`__getitem__`). -/
theorem getitem_spec (pars : Pars) (key : String) :
    (∀ v, dictGet pars key = some v → getitem pars key = .ok v) ∧
    (dictGet pars key = none →
      getitem pars key = .error (.keyErrorPlain key) ∧
      (Err.keyErrorPlain key).isSuggestionOrListing = false) ∧
    (dictMem pars key = false → ∀ v e, (setitem pars key v).1 = some e →
      e.isSuggestionOrListing = true) := by
  refine ⟨fun v hv => by simp [getitem, hv],
    fun hn => ⟨by simp [getitem, hn], rfl⟩, ?_⟩
  intro hm v e he
  rcases hsug : suggest key (dictKeys pars) with _ | sg <;>
    simp only [setitem, hm, Bool.false_eq_true, if_false, hsug,
      Option.some.injEq] at he <;>
    rw [← he] <;> rfl

theorem dictGet_dictUpdate_not_mem (new : Pars) (pars : Pars) (k : String)
    (h : k ∉ dictKeys new) : dictGet (dictUpdate pars new) k = dictGet pars k := by
  induction new generalizing pars with
  | nil => rfl
  | cons kv rest ih =>
    have hk : k ≠ kv.1 := by
      intro hc
      exact h (by simp [dictKeys, hc])
    have hrest : k ∉ dictKeys rest := by
      intro hc
      exact h (by simp [dictKeys] at hc ⊢; exact Or.inr hc)
    show dictGet (dictUpdate (dictSet pars kv.1 kv.2) rest) k = dictGet pars k
    rw [ih (dictSet pars kv.1 kv.2) hrest,
      dictGet_dictSet_ne pars kv.1 k kv.2 hk]

theorem dictGet_dictUpdate_mem (new : Pars) (pars : Pars) (k : String)
    (v : ℚ) (hnd : (dictKeys new).Nodup) (hv : dictGet new k = some v) :
    dictGet (dictUpdate pars new) k = some v := by
  induction new generalizing pars with
  | nil => simp [dictGet] at hv
  | cons kv rest ih =>
    have hkeys : dictKeys (kv :: rest) = kv.1 :: dictKeys rest := rfl
    rw [hkeys] at hnd
    have hnd1 := List.nodup_cons.mp hnd
    by_cases hk : kv.1 = k
    · have hveq : v = kv.2 := by
        simp [dictGet, hk] at hv
        exact hv.symm
      have hrest : k ∉ dictKeys rest := hk ▸ hnd1.1
      show dictGet (dictUpdate (dictSet pars kv.1 kv.2) rest) k = some v
      rw [dictGet_dictUpdate_not_mem rest (dictSet pars kv.1 kv.2) k hrest,
        hk, hveq]
      exact dictGet_dictSet_self pars k kv.2
    · have hv' : dictGet rest k = some v := by
        simpa [dictGet, hk] using hv
      exact ih (dictSet pars kv.1 kv.2) hnd1.2 hv'

/-- C9: `update_pars` with `create=False` validates every key before any
mutation — if any key of the mapping is absent from the store it fails and
the store is returned unchanged, and when all keys are present the update is
applied; with `create=True` the whole mapping is applied unconditionally. -/
theorem update_pars_spec (pars new : Pars) :
    (∀ k, k ∈ dictKeys new → dictMem pars k = false →
      (update_pars pars new false).1.isSome = true ∧
      (update_pars pars new false).2 = pars) ∧
    ((∀ k, k ∈ dictKeys new → dictMem pars k = true) →
      update_pars pars new false = (none, dictUpdate pars new)) ∧
    (update_pars pars new true = (none, dictUpdate pars new) ∧
     ∀ k v, (dictKeys new).Nodup → dictGet new k = some v →
       dictGet (update_pars pars new true).2 k = some v) := by
  refine ⟨?_, ?_, rfl, ?_⟩
  · intro k hk hm
    have hmem : k ∈ (dictKeys new).filter (fun j => !dictMem pars j) :=
      List.mem_filter.mpr ⟨hk, by simp [hm]⟩
    rcases hflt : (dictKeys new).filter (fun j => !dictMem pars j)
      with _ | ⟨m, ms⟩
    · rw [hflt] at hmem
      exact absurd hmem (List.not_mem_nil k)
    · simp [update_pars, hflt]
  · intro hall
    have hflt : (dictKeys new).filter (fun j => !dictMem pars j) = [] := by
      rw [List.filter_eq_nil_iff]
      intro k hk
      simp [hall k hk]
    simp [update_pars, hflt]
  · intro k v hnd hv
    show dictGet (dictUpdate pars new) k = some v
    exact dictGet_dictUpdate_mem new pars k v hnd hv

section RatConcreteEval

attribute [local semireducible] Rat.add Rat.mul Rat.sub Rat.inv

/-- C2 (code bug): the `**kwargs` override loop of `single_run` applies a
valid override only when `verbose >= 1`: the assignment `new_sim[key] = val`
(line 341) is indented under the `if verbose>=1:` debug print (note the
stray `pass` on line 342), so at `verbose=0` the valid override `x=9` is
silently dropped while at `verbose=1` it is applied; an invalid override key
raises regardless of verbosity. -/
theorem single_run_override_verbose_bug :
    single_run_prep 0 0 none none 0 [("x", 9)] ⟨c2sim, c2sim⟩ =
      .ok () ⟨c2sim, c2quiet⟩ ∧
    dictGet c2quiet.pars "x" = some 4 ∧
    single_run_prep 0 0 none (some 1) 0 [("x", 9)] ⟨c2sim, c2sim⟩ =
      .ok () ⟨c2sim, c2loud⟩ ∧
    dictGet c2loud.pars "x" = some 9 ∧
    single_run_prep 0 0 none none 0 [("bogus", 9)] ⟨c2sim, c2sim⟩ =
      .error (.keyErrorInvalidOverride "bogus") ⟨c2sim, c2quiet⟩ :=
  ⟨by decide, by decide, by decide, by decide, by decide⟩

end RatConcreteEval

theorem derive_n_loop_ok (ips : List (String × List ℚ)) :
    ∀ (m : Nat) (r : Option Nat), derive_n_loop (some m) ips = .ok r →
      r = some m ∧ ∀ kv ∈ ips, kv.2.length = m := by
  induction ips with
  | nil =>
    intro m r h
    simp only [derive_n_loop, Except.ok.injEq] at h
    exact ⟨h.symm, by simp⟩
  | cons kv rest ih =>
    intro m r h
    by_cases hl : kv.2.length = m
    · simp only [derive_n_loop, hl, ne_eq, not_true_eq_false, if_false] at h
      rcases ih m r (by simpa [hl] using h) with ⟨hr, hrest⟩
      exact ⟨hr, by
        intro kv2 hkv2
        rcases List.mem_cons.mp hkv2 with rfl | hkv2
        · exact hl
        · exact hrest kv2 hkv2⟩
    · simp only [derive_n_loop, ne_eq, hl, not_false_eq_true, if_true] at h
      exact Except.noConfusion h

theorem derive_n_loop_error (ips : List (String × List ℚ)) :
    ∀ (acc : Option Nat) (e : Err), derive_n_loop acc ips = .error e →
      ∃ m l, e = .valueErrorIterLength m l ∧ m ≠ l := by
  induction ips with
  | nil =>
    intro acc e h
    simp only [derive_n_loop] at h
    exact Except.noConfusion h
  | cons kv rest ih =>
    intro acc e h
    rcases acc with _ | m
    · exact ih (some kv.2.length) e (by simpa [derive_n_loop] using h)
    · by_cases hl : kv.2.length = m
      · simp only [derive_n_loop, hl, ne_eq, not_true_eq_false, if_false] at h
        exact ih (some kv.2.length) e (by simpa [hl] using h)
      · simp only [derive_n_loop, ne_eq, hl, not_false_eq_true, if_true,
          Except.error.injEq] at h
        exact ⟨m, kv.2.length, h.symm, fun hc => hl hc.symm⟩

theorem derive_n_ok (ips : List (String × List ℚ)) (r : Option Nat)
    (h : derive_n ips = .ok r) :
    (ips = [] ∧ r = none) ∨
    (∃ m, r = some m ∧ ∀ kv ∈ ips, kv.2.length = m) := by
  rcases ips with _ | ⟨kv, rest⟩
  · left
    refine ⟨rfl, ?_⟩
    simpa [derive_n, derive_n_loop] using h.symm
  · right
    have h' : derive_n_loop (some kv.2.length) rest = .ok r := by
      simpa [derive_n, derive_n_loop] using h
    rcases derive_n_loop_ok rest kv.2.length r h' with ⟨hr, hrest⟩
    refine ⟨kv.2.length, hr, ?_⟩
    intro kv2 hkv2
    rcases List.mem_cons.mp hkv2 with rfl | hkv2
    · rfl
    · exact hrest kv2 hkv2

theorem run_sims_length (runImpl : Sim → Sim) (sim : Sim) (noise : ℚ)
    (noisepar : Option String) (verbose : Option ℚ) (zs : Nat → ℚ)
    (iterpars : List (String × List ℚ)) :
    ∀ (inds : List Nat) (sims : List Sim),
      run_sims runImpl sim noise noisepar verbose zs iterpars inds =
        .ok sims → sims.length = inds.length := by
  intro inds
  induction inds with
  | nil =>
    intro sims h
    simp only [run_sims, Except.ok.injEq] at h
    rw [← h]
    rfl
  | cons i rest ih =>
    intro sims h
    simp only [run_sims] at h
    rcases hsr : single_run runImpl (i : ℚ) noise noisepar verbose (zs i)
        (kwargs_at iterpars i) ⟨sim, sim⟩ with ⟨s, h1⟩ | ⟨e, h1⟩
    · rw [hsr] at h
      rcases hrest : run_sims runImpl sim noise noisepar verbose zs iterpars
          rest with e' | sims'
      · rw [hrest] at h
        exact Except.noConfusion h
      · rw [hrest] at h
        simp only [Except.ok.injEq] at h
        rw [← h]
        simp [ih sims' hrest]
    · rw [hsr] at h
      exact Except.noConfusion h

/-- C6: when an iteration-parameter mapping is supplied, the run count is
derived from the common length of the value sequences (a successful
collection returns exactly that many runs, one per index), and any two
sequences of different lengths make `multi_run` fail with the
iteration-length error — independently of the template, the run
implementation, the noise draws and the combine flag, i.e. before any run
executes. -/
theorem multi_run_iterpars_spec (runImpl : Sim → Sim) (sim : Sim) (n : Nat)
    (noise : ℚ) (noisepar : Option String) (vb : Option ℚ) (combine : Bool)
    (zs : Nat → ℚ) :
    (∀ (ips : List (String × List ℚ)) (kv1 kv2 : String × List ℚ),
      kv1 ∈ ips → kv2 ∈ ips → kv1.2.length ≠ kv2.2.length →
      ∃ m l, m ≠ l ∧
        multi_run runImpl sim n noise noisepar (some ips) vb combine zs =
          .error (.valueErrorIterLength m l)) ∧
    (∀ (ips : List (String × List ℚ)) (m : Nat) (sims : List Sim),
      multi_run_sims runImpl sim n noise noisepar (some ips) vb zs =
        .ok (m, sims) →
      sims.length = m ∧ ∀ kv ∈ ips, kv.2.length = m) := by
  constructor
  · intro ips kv1 kv2 h1 h2 hne
    rcases hd : derive_n ips with e | r
    · rcases derive_n_loop_error ips none e hd with ⟨m, l, rfl, hml⟩
      exact ⟨m, l, hml, by simp [multi_run, multi_run_sims, hd]⟩
    · rcases derive_n_ok ips r hd with ⟨rfl, _⟩ | ⟨m, rfl, hall⟩
      · exact absurd h1 (List.not_mem_nil kv1)
      · exact absurd (by rw [hall kv1 h1, hall kv2 h2]) hne
  · intro ips m sims hok
    rcases hd : derive_n ips with e | r
    · simp [multi_run_sims, hd] at hok
    · rcases r with _ | m'
      · simp [multi_run_sims, hd] at hok
      · rcases hrs : run_sims runImpl sim noise noisepar vb zs ips
            (List.range m') with e' | sims'
        · simp [multi_run_sims, hd, hrs] at hok
        · have hms : m' = m ∧ sims' = sims := by
            have := hok
            simp only [multi_run_sims, hd, hrs, Except.ok.injEq,
              Prod.mk.injEq] at this
            exact this
          rcases hms with ⟨rfl, rfl⟩
          constructor
          · rw [run_sims_length runImpl sim noise noisepar vb zs ips
              (List.range m') sims' hrs]
            exact List.length_range m'
          · rcases derive_n_ok ips (some m') hd with ⟨rfl, hc⟩ | ⟨m2, hm2, hall⟩
            · exact Option.noConfusion hc
            · have : m2 = m' := by
                rcases Option.some.injEq .. ▸ hm2 with h
                exact (Option.some_injective _ hm2).symm
              rw [← this]
              exact hall

theorem dictMem_false_of_not_mem_keys {κ α : Type} [DecidableEq κ]
    {d : List (κ × α)} {k : κ} (h : k ∉ dictKeys d) : dictMem d k = false := by
  cases hb : dictMem d k with
  | false => rfl
  | true =>
    rcases dictGet_some_of_dictMem hb with ⟨v, hv⟩
    exact absurd (mem_dictKeys_of_dictGet_some hv) h

theorem add_results_not_mem :
    ∀ (srcR acc res : Results) (k : String),
      add_results acc srcR = .ok res → dictMem srcR k = false →
      dictGet res k = dictGet acc k := by
  intro srcR
  induction srcR with
  | nil =>
    intro acc res k h _
    simp only [add_results, Except.ok.injEq] at h
    rw [← h]
  | cons kv rest ih =>
    intro acc res k h hmem
    have hk : ¬ kv.1 = k := by
      intro hc
      simp [dictMem, dictGet, hc] at hmem
    have hmem' : dictMem rest k = false := by
      simpa [dictMem, dictGet, hk] using hmem
    rcases hx : dictGet acc kv.1 with _ | xs
    · simp only [add_results, hx] at h
      exact Except.noConfusion h
    · simp only [add_results, hx] at h
      rw [ih (dictSet acc kv.1 (addSeries xs kv.2)) res k h hmem',
        dictGet_dictSet_ne acc kv.1 k (addSeries xs kv.2) (fun hc => hk hc.symm)]

theorem add_results_mem :
    ∀ (srcR acc res : Results) (k : String) (xs ys : List ℚ),
      (dictKeys srcR).Nodup → add_results acc srcR = .ok res →
      dictGet acc k = some xs → dictGet srcR k = some ys →
      dictGet res k = some (addSeries xs ys) := by
  intro srcR
  induction srcR with
  | nil =>
    intro acc res k xs ys _ _ _ hys
    simp [dictGet] at hys
  | cons kv rest ih =>
    intro acc res k xs ys hnd h hxs hys
    have hkeys : dictKeys (kv :: rest) = kv.1 :: dictKeys rest := rfl
    rw [hkeys] at hnd
    have hnd1 := List.nodup_cons.mp hnd
    rcases hx : dictGet acc kv.1 with _ | w
    · simp only [add_results, hx] at h
      exact Except.noConfusion h
    · simp only [add_results, hx] at h
      by_cases hk : kv.1 = k
      · have hw : w = xs := by
          rw [hk] at hx
          rw [hx] at hxs
          exact Option.some_injective _ hxs
        have hy : ys = kv.2 := by
          simp only [dictGet, if_pos hk] at hys
          exact (Option.some_injective _ hys).symm
        have hrest : dictMem rest k = false :=
          dictMem_false_of_not_mem_keys (hk ▸ hnd1.1)
        rw [add_results_not_mem rest (dictSet acc kv.1 (addSeries w kv.2))
          res k h hrest, hk, hw, ← hy]
        exact dictGet_dictSet_self acc k (addSeries xs ys)
      · have hys' : dictGet rest k = some ys := by
          simpa [dictGet, hk] using hys
        have hxs' : dictGet (dictSet acc kv.1 (addSeries w kv.2)) k
            = some xs := by
          rw [dictGet_dictSet_ne acc kv.1 k (addSeries w kv.2)
            (fun hc => hk hc.symm)]
          exact hxs
        exact ih (dictSet acc kv.1 (addSeries w kv.2)) res k xs ys hnd1.2 h
          hxs' hys'

/-- C1: for a pair of completed runs collected by `multi_run` (automatic
noise-parameter detection, no iteration parameters) with `combine=True`, the
merged engine's result TimeSeries are the element-wise sums of the two runs'
TimeSeries, and its population-count parameter `n` equals the template's `n`
multiplied by the number of runs. -/
theorem multi_run_combine_pair (runImpl : Sim → Sim)
    (hrun : ∀ s, (runImpl s).pars = s.pars)
    (sim : Sim) (noise : ℚ) (vb : Option ℚ) (zs : Nat → ℚ) (n0 : ℚ)
    (hn : dictGet sim.pars "n" = some n0)
    (s1 s2 merged : Sim)
    (hruns : multi_run runImpl sim 2 noise none none vb false zs =
      .ok (.inl [s1, s2]))
    (hm : multi_run runImpl sim 2 noise none none vb true zs =
      .ok (.inr merged)) :
    dictGet merged.pars "n" = some (n0 * 2) ∧
    ∀ key xs ys, (dictKeys s2.results).Nodup →
      dictGet s1.results key = some xs → dictGet s2.results key = some ys →
      dictGet merged.results key = some (addSeries xs ys) := by
  -- extract the collected runs
  rcases hms : multi_run_sims runImpl sim 2 noise none none vb zs
    with e | ⟨m, sims⟩
  · simp [multi_run, hms] at hruns
  · simp only [multi_run, hms, Bool.false_eq_true, if_false,
      Except.ok.injEq, Sum.inl.injEq] at hruns
    subst hruns
    rcases hcs : combine_sims [s1, s2] m with e | out
    · simp [multi_run, hms, hcs] at hm
    · simp only [multi_run, hms, hcs, Except.ok.injEq, Sum.inr.injEq,
        if_true] at hm
      subst hm
      -- recover the run list and count
      rcases hrs : run_sims runImpl sim noise none vb zs [] (List.range 2)
        with e' | sims'
      · simp [multi_run_sims, hrs] at hms
      · simp only [multi_run_sims, hrs, Except.ok.injEq,
          Prod.mk.injEq] at hms
        rcases hms with ⟨hm2, hsims⟩
        subst hm2
        -- unfold the two runs
        have hrange : List.range 2 = [0, 1] := rfl
        rw [hrange] at hrs
        simp only [run_sims] at hrs
        subst hsims
        split at hrs
        · simp at hrs
        · next sa ha hsr1 =>
          split at hrs
          · simp at hrs
          · next sb hb hsr2 =>
            simp only [Except.ok.injEq, List.cons.injEq, and_true] at hrs
            rcases hrs with ⟨hsa, hsb⟩
            subst hsa
            subst hsb
            -- invert the first run to learn its parameter store
            rcases hp1 : single_run_prep ((0 : Nat) : ℚ) noise none vb (zs 0)
                (kwargs_at [] 0) ⟨sim, sim⟩ with ⟨u, hh1⟩ | ⟨e1, hh1⟩
            · simp only [single_run, hp1, RunResult.ok.injEq] at hsr1
              rcases single_run_prep_ok_inv hp1 with
                ⟨w, s0, p, cur, hv, hsd, hg, hcur, rfl⟩
              have hpn : p ≠ "n" :=
                (guesses_ne_of_mem (mem_of_filter_eq_singleton hg)).2.1
              have hs1pars : sa.pars = dictSet (dictSet sim.pars "seed"
                  (s0 + ((0 : Nat) : ℚ))) p (cur * noisefactor (noise * zs 0)) := by
                rw [← hsr1.1, hrun]
              have hn1 : dictGet sa.pars "n" = some n0 := by
                rw [hs1pars,
                  dictGet_dictSet_ne _ p "n" _ (fun hc => hpn hc.symm),
                  dictGet_dictSet_ne _ "seed" "n" _ (by decide)]
                exact hn
              -- unfold the combine step on the pair
              rcases hpar : dictGet (dictSet sa.pars "parallelized"
                  ((2 : Nat) : ℚ)) "n" with _ | nv
              · rw [combine_sims, hpar] at hcs
                exact Except.noConfusion hcs
              · have hnv : n0 = nv := by
                  rw [dictGet_dictSet_ne sa.pars "parallelized" "n"
                    ((2 : Nat) : ℚ) (by decide), hn1] at hpar
                  exact Option.some_injective _ hpar
                subst hnv
                rw [combine_sims, hpar] at hcs
                rcases har : add_results sa.results s2.results
                  with e2 | res
                · simp only [combine_loop, har] at hcs
                  exact Except.noConfusion hcs
                · simp only [combine_loop, har, Except.ok.injEq] at hcs
                  constructor
                  · rw [← hcs]
                    show dictGet (dictSet (dictSet sa.pars "parallelized"
                      ((2 : Nat) : ℚ)) "n" (n0 * ((2 : Nat) : ℚ))) "n"
                      = some (n0 * 2)
                    rw [dictGet_dictSet_self]
                    norm_num
                  · intro key xs ys hnd hxs hys
                    rw [← hcs]
                    show dictGet res key = some (addSeries xs ys)
                    exact add_results_mem s2.results sa.results res key xs ys
                      hnd har hxs hys
            · simp only [single_run, hp1] at hsr1
              exact RunResult.noConfusion hsr1

/-- C7 witness: concrete instantiation of `setitem_spec`. -/
theorem setitem_spec_witness :
    (setitem wpars "beta" 5).1 = none ∧
    getitem (setitem wpars "beta" 5).2 "beta" = .ok 5 ∧
    (setitem wpars "zeta" 5).1.isSome = true ∧
    (setitem wpars "zeta" 5).2 = wpars :=
  ⟨((setitem_spec wpars "beta" 5).1 (by decide)).1,
   ((setitem_spec wpars "beta" 5).1 (by decide)).2,
   ((setitem_spec wpars "zeta" 5).2 (by decide)).1,
   ((setitem_spec wpars "zeta" 5).2 (by decide)).2⟩

/-- C8 counterexample: on the store `{beta: 3}`, `get("betax")` raises the
plain `KeyError("betax")` — an error that carries neither a near-match
suggestion nor the available-key listing — even though a near match exists
(`suggest` would propose `beta`).  The suggestion/listing message belongs to
`__setitem__`, not `__getitem__`. -/
theorem getitem_plain_error_counterexample :
    getitem wpars "betax" = .error (.keyErrorPlain "betax") ∧
    (Err.keyErrorPlain "betax").isSuggestionOrListing = false ∧
    suggest "betax" (dictKeys wpars) = some "beta" :=
  ⟨by decide, rfl, by decide⟩

/-- C8 witness: concrete instantiation of the amended `getitem_spec`. -/
theorem getitem_spec_witness :
    getitem wpars "beta" = .ok 3 ∧
    getitem wpars "betax" = .error (.keyErrorPlain "betax") :=
  ⟨(getitem_spec wpars "beta").1 3 (by decide),
   ((getitem_spec wpars "betax").2.1 (by decide)).1⟩

/-- C9 witness: concrete instantiation of `update_pars_spec`. -/
theorem update_pars_spec_witness :
    (update_pars w9pars w9new false).1.isSome = true ∧
    (update_pars w9pars w9new false).2 = w9pars ∧
    update_pars w9pars [("beta", 5)] false =
      (none, dictUpdate w9pars [("beta", 5)]) ∧
    update_pars w9pars w9new true = (none, dictUpdate w9pars w9new) ∧
    dictGet (update_pars w9pars w9new true).2 "gamma" = some 7 := by
  refine ⟨((update_pars_spec w9pars w9new).1 "gamma" (by decide) (by decide)).1,
    ((update_pars_spec w9pars w9new).1 "gamma" (by decide) (by decide)).2,
    (update_pars_spec w9pars [("beta", 5)]).2.1 ?_,
    (update_pars_spec w9pars w9new).2.2.1,
    (update_pars_spec w9pars w9new).2.2.2 "gamma" 7 (by decide) (by decide)⟩
  intro k hk
  fin_cases hk
  decide

/-- C5 witness: concrete instantiation of `noisefactor_spec` at a negative
and a positive drawn value. -/
theorem noisefactor_spec_witness :
    noisefactor (-3) = 1 / (1 - (-3)) ∧ 0 < noisefactor (-3) ∧
    noisefactor 2 = 1 + 2 :=
  ⟨(noisefactor_spec (-3)).2.1 (by norm_num), (noisefactor_spec (-3)).2.2,
   (noisefactor_spec 2).1 (by norm_num)⟩

section RatWitnessEval

attribute [local semireducible] Rat.add Rat.mul Rat.sub Rat.inv

/-- C3 witness: concrete instantiation of `single_run_seed_spec` on a
template with base seed 4 and run indices 3 and 5. -/
theorem single_run_seed_spec_witness :
    dictGet w3run1.pars "seed" = some (4 + 3) ∧
    w3run1.rngSeededWith = some (4 + 3) ∧
    w3run1.rngSeededWith ≠ w3run2.rngSeededWith := by
  have h := single_run_seed_spec 3 5 0 0 0 none w3sim 4 (by decide) () ()
    ⟨w3sim, w3run1⟩ ⟨w3sim, w3run2⟩ (by decide) (by decide)
  exact ⟨h.1.1, h.1.2, h.2 (by decide)⟩

/-- C4 witness: concrete instantiation of `single_run_noisepar_guess` — the
store with only `r0` proceeds, the store with both `r0` and `beta` fails. -/
theorem single_run_noisepar_guess_witness :
    single_run_prep 0 0 none (some 0) 0 [] ⟨w4one, w4one⟩ =
      .ok () ⟨w4one, { w4one with
        pars := dictSet (dictSet w4one.pars "seed" (0 + 0)) "r0"
          (2 * noisefactor (0 * 0)),
        rngSeededWith := some (0 + 0) }⟩ ∧
    single_run_prep 0 0 none (some 0) 0 [] ⟨w4two, w4two⟩ =
      .error (.keyErrorNoiseGuess ["r0", "beta"])
        ⟨w4two, { w4two with
          pars := dictSet w4two.pars "seed" (0 + 0),
          rngSeededWith := some (0 + 0) }⟩ :=
  ⟨(single_run_noisepar_guess 0 0 0 0 w4one 0 (by decide)).1 "r0" 2
     (by decide) (by decide),
   (single_run_noisepar_guess 0 0 0 0 w4two 0 (by decide)).2
     ["r0", "beta"] (by decide) (by decide)⟩

/-- C6 witness: mismatched sequence lengths fail with the iteration-length
error, and a consistent sweep of length 2 yields exactly 2 runs. -/
theorem multi_run_iterpars_spec_witness :
    multi_run id w6sim 4 0 none (some [("a", [1, 2]), ("b", [1, 2, 3])])
      (some 0) false (fun _ => 0) = .error (.valueErrorIterLength 2 3) ∧
    ([w6r1, w6r2] : List Sim).length = 2 := by
  constructor
  · decide
  · exact ((multi_run_iterpars_spec id w6sim 4 0 none (some 0) false
      (fun _ => 0)).2 [("beta", [1, 1])] 2 [w6r1, w6r2] (by decide)).1

/-- C10 witness: concrete instantiation of `single_run_template_readonly`. -/
theorem single_run_template_readonly_witness :
    (single_run id 0 0 none (some 0) 0 [("r0", 9)]
      ⟨w4one, w4one⟩).heapOf.template = w4one ∧
    w4run = (Heap.mk w4one w4run).clone :=
  ⟨(single_run_template_readonly id 0 0 none (some 0) 0 [("r0", 9)]
      ⟨w4one, w4one⟩).1,
   (single_run_template_readonly id 0 0 none (some 0) 0 [("r0", 9)]
      ⟨w4one, w4one⟩).2 w4run ⟨w4one, w4run⟩ (by decide)⟩

/-- C1 witness: the spec scenario — two completed runs whose
`new_infections` series sum to 50 and 70 yield a merged engine whose series
is the element-wise sum (summing to 120), with `n` scaled from 5 to 10. -/
theorem multi_run_combine_pair_witness :
    dictGet w1merged.pars "n" = some (5 * 2) ∧
    dictGet w1merged.results "new_infections" =
      some (addSeries [20, 30] [30, 40]) := by
  have h := multi_run_combine_pair w1run
    (fun s => by unfold w1run; split <;> rfl) w1sim 0 none (fun _ => 0) 5
    (by decide) w1s1 w1s2 w1merged (by decide) (by decide)
  exact ⟨h.1, h.2 "new_infections" [20, 30] [30, 40] (by decide) (by decide)
    (by decide)⟩

end RatWitnessEval
